import Mathlib

/-!
Shallow embedding of go-ds-measure (measure.go): a datastore wrapper that
records per-operation metrics (counters and histograms) and delegates every
call to a backend datastore.

Modelling choices:
* A histogram is represented by the stream of samples passed to its Update
  method (a `List Int`); a counter by its int64 value (an `Int`).  The claims
  are about which samples and increments each operation produces.
* The backend is represented by its observable outcome at each call: the
  error (`Option ε` for an arbitrary error type `ε`) or result it returns,
  supplied as an argument to the embedded operation.
* Elapsed wall-clock microseconds are a `Nat` argument (Go computes
  `time.Now().Sub(start) / time.Microsecond` with the monotonic clock, which
  is nonnegative); integer division in Go on nonnegative operands truncates
  exactly like `Nat` division.
* Whether a backend call (sub-batch commit, backend Close) was invoked is an
  explicit observable in the result, since the claims speak about calls that
  must or must not happen.
-/

namespace DsMeasure

/-- A value passed to Put or returned by Get: Go's `value.([]byte)` type
assertion either succeeds, in which case only the byte length matters to the
metrics, or fails (any non-byte value). -/
inductive Val where
  | bytes (len : Nat)
  | other
deriving DecidableEq, Repr

/-- The sample the put/get size histogram receives for this value: one sample
equal to the byte length for a byte payload, nothing otherwise. -/
def Val.sizeSample : Val → List Int
  | .bytes n => [(n : Int)]
  | .other => []

/-- Byte length of a byte payload (0 for non-byte values; only used under a
hypothesis that the value is a byte payload). -/
def Val.byteLen : Val → Nat
  | .bytes n => n
  | .other => 0

/-- Whether Go's `value.([]byte)` assertion succeeds for this value. -/
def Val.isBytes : Val → Bool
  | .bytes _ => true
  | .other => false

/-- Observable state of the 17 metric handles owned by a `measure` wrapper:
counter values and histogram sample streams, one field per handle, exactly as
laid out in the Go struct `measure`. -/
structure Metrics where
  putCount : Int
  putErr : Int
  putLatency : List Int
  putSize : List Int
  getCount : Int
  getErr : Int
  getLatency : List Int
  getSize : List Int
  hasCount : Int
  hasErr : Int
  hasLatency : List Int
  deleteCount : Int
  deleteErr : Int
  deleteLatency : List Int
  queryCount : Int
  queryErr : Int
  queryLatency : List Int
deriving DecidableEq, Repr

/-- Fresh metric state: all counters zero, all histograms empty. -/
def Metrics.init : Metrics :=
  ⟨0, 0, [], [], 0, 0, [], [], 0, 0, [], 0, 0, [], 0, 0, []⟩

variable {ε ρ : Type}

/-- Embedding of `measure.Put` (measure.go lines 112-123): increment
put.count, sample put.size if the value is a byte slice, delegate to the
backend (outcome `berr`), increment put.err on error, and record the elapsed
microseconds into put.latency via the deferred `recordLatency`.  Returns the
updated metric state and the error returned to the caller. -/
def measurePut (st : Metrics) (value : Val) (berr : Option ε) (elapsed : Nat) :
    Metrics × Option ε :=
  let st1 := { st with putCount := st.putCount + 1 }
  let st2 :=
    match value with
    | .bytes n => { st1 with putSize := st1.putSize ++ [(n : Int)] }
    | .other => st1
  let st3 :=
    match berr with
    | some _ => { st2 with putErr := st2.putErr + 1 }
    | none => st2
  let st4 := { st3 with putLatency := st3.putLatency ++ [(elapsed : Int)] }
  (st4, berr)

/-- Embedding of `measure.Get` (measure.go lines 125-137): increment
get.count, delegate to the backend (outcome `res`), increment get.err on
error or sample get.size on a successful byte-slice value, and record the
elapsed microseconds into get.latency.  Returns the updated metric state and
the value/error pair returned to the caller. -/
def measureGet (st : Metrics) (res : Except ε Val) (elapsed : Nat) :
    Metrics × Except ε Val :=
  let st1 := { st with getCount := st.getCount + 1 }
  let st2 :=
    match res with
    | .error _ => { st1 with getErr := st1.getErr + 1 }
    | .ok (.bytes n) => { st1 with getSize := st1.getSize ++ [(n : Int)] }
    | .ok .other => st1
  let st3 := { st2 with getLatency := st2.getLatency ++ [(elapsed : Int)] }
  (st3, res)

/-- Embedding of `measure.Has` (measure.go lines 139-147): increment
has.count, delegate to the backend (outcome `ex` and `berr`), increment
has.err on error, record elapsed into has.latency; the backend pair is
returned unchanged. -/
def measureHas (st : Metrics) (ex : Bool) (berr : Option ε) (elapsed : Nat) :
    Metrics × Bool × Option ε :=
  let st1 := { st with hasCount := st.hasCount + 1 }
  let st2 :=
    match berr with
    | some _ => { st1 with hasErr := st1.hasErr + 1 }
    | none => st1
  let st3 := { st2 with hasLatency := st2.hasLatency ++ [(elapsed : Int)] }
  (st3, ex, berr)

/-- Embedding of `measure.Delete` (measure.go lines 149-157): increment
delete.count, delegate, increment delete.err on error, record elapsed into
delete.latency; the backend error is returned unchanged. -/
def measureDelete (st : Metrics) (berr : Option ε) (elapsed : Nat) :
    Metrics × Option ε :=
  let st1 := { st with deleteCount := st.deleteCount + 1 }
  let st2 :=
    match berr with
    | some _ => { st1 with deleteErr := st1.deleteErr + 1 }
    | none => st1
  let st3 := { st2 with deleteLatency := st2.deleteLatency ++ [(elapsed : Int)] }
  (st3, berr)

/-- Embedding of `measure.Query` (measure.go lines 159-167): increment
query.count, delegate (backend result stream `res` of abstract type `ρ` and
error `berr`), increment query.err on error, record elapsed into
query.latency; the backend pair is returned unchanged. -/
def measureQuery (st : Metrics) (res : ρ) (berr : Option ε) (elapsed : Nat) :
    Metrics × ρ × Option ε :=
  let st1 := { st with queryCount := st.queryCount + 1 }
  let st2 :=
    match berr with
    | some _ => { st1 with queryErr := st1.queryErr + 1 }
    | none => st1
  let st3 := { st2 with queryLatency := st2.queryLatency ++ [(elapsed : Int)] }
  (st3, res, berr)

/-- Buffered-operation counters of a `measuredBatch` (measure.go lines
169-177): how many puts and deletes were queued since the batch was opened. -/
structure MeasuredBatch where
  puts : Nat
  deletes : Nat
deriving DecidableEq, Repr

/-- Error returned by `measure.Batch`: the typed
`datastore.ErrBatchUnsupported` when the backend does not implement
`datastore.Batching`, or an error propagated from one of the two backend
`Batch()` calls. -/
inductive BatchOpenError (ε : Type) where
  | errBatchUnsupported
  | backend (e : ε)
deriving DecidableEq, Repr

/-- Embedding of `measure.Batch` (measure.go lines 179-200): if the backend
does not implement the batching capability, return the typed unsupported
error; otherwise open the put backend batch then the delete backend batch
(outcomes `putBatchErr`, `delBatchErr`), propagating the first failure, and
return a fresh `measuredBatch` with both buffered counters at zero.  The
metric state is returned so that the claims can observe it is untouched. -/
def measureBatch (batchingSupported : Bool) (putBatchErr delBatchErr : Option ε)
    (st : Metrics) : Metrics × Except (BatchOpenError ε) MeasuredBatch :=
  if !batchingSupported then (st, Except.error BatchOpenError.errBatchUnsupported)
  else
    match putBatchErr with
    | some e => (st, Except.error (BatchOpenError.backend e))
    | none =>
      match delBatchErr with
      | some e => (st, Except.error (BatchOpenError.backend e))
      | none => (st, Except.ok ⟨0, 0⟩)

/-- Embedding of `measuredBatch.Put` (measure.go lines 202-209): increment
the puts-buffered counter, sample put.size if the value is a byte slice, then
forward to the backend put-batch session (outcome `berr`), returning its
error unchanged. -/
def batchPut (st : Metrics) (mt : MeasuredBatch) (val : Val) (berr : Option ε) :
    Metrics × MeasuredBatch × Option ε :=
  let mt1 := { mt with puts := mt.puts + 1 }
  let st1 :=
    match val with
    | .bytes n => { st with putSize := st.putSize ++ [(n : Int)] }
    | .other => st
  (st1, mt1, berr)

/-- Embedding of `measuredBatch.Delete` (measure.go lines 211-214): increment
the deletes-buffered counter, then forward to the backend delete-batch
session (outcome `berr`), returning its error unchanged. -/
def batchDelete (mt : MeasuredBatch) (berr : Option ε) :
    MeasuredBatch × Option ε :=
  ({ mt with deletes := mt.deletes + 1 }, berr)

/-- Result of `logBatchCommit` on one sub-batch: the new values of the count
counter, error counter and latency histogram it was given, whether the
backend `b.Commit()` was invoked, and the error returned. -/
structure SubCommitOut (ε : Type) where
  num : Int
  errs : Int
  lat : List Int
  invoked : Bool
  err : Option ε
deriving DecidableEq, Repr

/-- Embedding of `logBatchCommit` (measure.go lines 230-245): if the buffered
count `n` is positive, invoke the backend commit (outcome `commitErr`, taking
`elapsedMicros` microseconds), compute the truncated per-item latency
`elapsedMicros / n`, increment the count counter by `n`, record the per-item
latency `n` times into the histogram, and on commit error increment the error
counter once and return the error.  If `n = 0` nothing happens at all. -/
def logBatchCommit (n : Nat) (commitErr : Option ε) (elapsedMicros : Nat)
    (num errs : Int) (lat : List Int) : SubCommitOut ε :=
  if 0 < n then
    let took : Nat := elapsedMicros / n
    let num1 := num + (n : Int)
    let lat1 := lat ++ List.replicate n (took : Int)
    match commitErr with
    | some e => ⟨num1, errs + 1, lat1, true, some e⟩
    | none => ⟨num1, errs, lat1, true, none⟩
  else ⟨num, errs, lat, false, none⟩

/-- Observable backend-commit invocations during `measuredBatch.Commit`, in
order. -/
inductive CommitEvent where
  | commitDeletes
  | commitPuts
deriving DecidableEq, Repr

/-- Embedding of `measuredBatch.Commit` (measure.go lines 216-228): run
`logBatchCommit` for the delete sub-batch first (backend outcome
`delCommitErr`, `delElapsed`), returning its error immediately if any;
otherwise run `logBatchCommit` for the put sub-batch (backend outcome
`putCommitErr`, `putElapsed`) and return its error.  The trace lists the
backend commits actually invoked, in order. -/
def measuredBatchCommit (st : Metrics) (mt : MeasuredBatch)
    (delCommitErr putCommitErr : Option ε) (delElapsed putElapsed : Nat) :
    Metrics × List CommitEvent × Option ε :=
  let r1 := logBatchCommit mt.deletes delCommitErr delElapsed
    st.deleteCount st.deleteErr st.deleteLatency
  let st1 := { st with deleteCount := r1.num, deleteErr := r1.errs,
                       deleteLatency := r1.lat }
  let tr1 := if r1.invoked then [CommitEvent.commitDeletes] else []
  match r1.err with
  | some e => (st1, tr1, some e)
  | none =>
    let r2 := logBatchCommit mt.puts putCommitErr putElapsed
      st1.putCount st1.putErr st1.putLatency
    let st2 := { st1 with putCount := r2.num, putErr := r2.errs,
                          putLatency := r2.lat }
    let tr2 := if r2.invoked then [CommitEvent.commitPuts] else []
    (st2, tr1 ++ tr2, r2.err)

/-- Embedding of the go-metrics registry used by `registerCounter` and
`registerHistogram` (measure.go lines 90-105): the registry is the list of
registered names; registering an already-present name is the collision that
makes the Go code panic, modelled as `Except.error` carrying the panic
message. -/
def registerName (reg : List String) (name : String) :
    Except String (List String) :=
  if name ∈ reg then Except.error ("duplicate metric " ++ name)
  else Except.ok (reg ++ [name])

/-- The 17 metric names registered by `New` (measure.go lines 25-52), in
registration order. -/
def metricNames (pfx : String) : List String :=
  [pfx ++ ".put.count", pfx ++ ".put.err", pfx ++ ".put.latency",
   pfx ++ ".put.size",
   pfx ++ ".get.count", pfx ++ ".get.err", pfx ++ ".get.latency",
   pfx ++ ".get.size",
   pfx ++ ".has.count", pfx ++ ".has.err", pfx ++ ".has.latency",
   pfx ++ ".delete.count", pfx ++ ".delete.err", pfx ++ ".delete.latency",
   pfx ++ ".query.count", pfx ++ ".query.err", pfx ++ ".query.latency"]

/-- Embedding of `New` (measure.go lines 25-52) restricted to its effect on
the metrics registry: register the 17 names handle by handle; the first
collision aborts construction with the panic message. -/
def measureNew (pfx : String) (reg : List String) :
    Except String (List String) :=
  (metricNames pfx).foldlM registerName reg

/-- Embedding of the 17 `metrics.Unregister` calls in `measure.Close`
(measure.go lines 248-264): go-metrics Unregister removes the name from the
registry and is a no-op when absent. -/
def unregisterAll (reg : List String) (names : List String) : List String :=
  names.foldl (fun r n => r.erase n) reg

/-- Embedding of `measure.Close` (measure.go lines 247-270): unregister all
17 metric names unconditionally; then, if the backend implements `io.Closer`
(`closeable`), invoke its Close (outcome `closeErr`) and return its result,
else return nil.  The Bool in the result records whether the backend Close
was invoked. -/
def measureClose (pfx : String) (reg : List String) (closeable : Bool)
    (closeErr : Option ε) : List String × Bool × Option ε :=
  let reg1 := unregisterAll reg (metricNames pfx)
  if closeable then (reg1, true, closeErr) else (reg1, false, none)

/-- Iterating `measure.Put` over a list of calls, each call given by the
value, the backend outcome and the elapsed time; returns the final metric
state. -/
def runPuts (st : Metrics) (calls : List (Val × Option ε × Nat)) : Metrics :=
  calls.foldl (fun s c => (measurePut s c.1 c.2.1 c.2.2).1) st

/-! Helper lemmas. -/

/-- The 17 per-metric suffixes appended to the caller's name in `New`, in
registration order. -/
def metricSuffixes : List String :=
  [".put.count", ".put.err", ".put.latency", ".put.size",
   ".get.count", ".get.err", ".get.latency", ".get.size",
   ".has.count", ".has.err", ".has.latency",
   ".delete.count", ".delete.err", ".delete.latency",
   ".query.count", ".query.err", ".query.latency"]

theorem metricNames_eq_map (pfx : String) :
    metricNames pfx = metricSuffixes.map (fun s => pfx ++ s) := rfl

theorem string_append_left_cancel {s t u : String} (h : s ++ t = s ++ u) :
    t = u := by
  have hd : (s ++ t).data = (s ++ u).data := by rw [h]
  simp only [String.data_append] at hd
  exact String.ext (List.append_cancel_left hd)

theorem metricNames_nodup (pfx : String) : (metricNames pfx).Nodup := by
  rw [metricNames_eq_map]
  refine List.Nodup.map (fun a b hab => ?_) (by decide)
  exact string_append_left_cancel hab

theorem foldlM_registerName_ok (names : List String) (reg : List String)
    (hdisj : ∀ n ∈ names, n ∉ reg) (hnd : names.Nodup) :
    names.foldlM registerName reg = Except.ok (reg ++ names) := by
  induction names generalizing reg with
  | nil => simp [List.foldlM, pure, Except.pure]
  | cons a l ih =>
    have ha : a ∉ reg := hdisj a (by simp)
    have h1 : registerName reg a = Except.ok (reg ++ [a]) := by
      simp [registerName, ha]
    have h2 : l.foldlM registerName (reg ++ [a]) = Except.ok (reg ++ [a] ++ l) := by
      refine ih (reg ++ [a]) (fun n hn => ?_) hnd.of_cons
      simp only [List.mem_append, List.mem_singleton]
      rintro (hmem | hrfl)
      · exact hdisj n (by simp [hn]) hmem
      · exact (List.nodup_cons.mp hnd).1 (hrfl ▸ hn)
    rw [List.foldlM_cons, h1]
    simpa [List.append_assoc] using h2

theorem foldl_erase_of_disjoint (names : List String) (reg0 : List String)
    (hdisj : ∀ n ∈ names, n ∉ reg0) :
    names.foldl (fun r n => r.erase n) (reg0 ++ names) = reg0 := by
  induction names generalizing reg0 with
  | nil => simp
  | cons a l ih =>
    have ha : a ∉ reg0 := hdisj a (by simp)
    rw [List.foldl_cons]
    have h1 : (reg0 ++ a :: l).erase a = reg0 ++ l := by
      rw [List.erase_append_right _ ha, List.erase_cons_head]
    rw [h1]
    exact ih reg0 (fun n hn => hdisj n (by simp [hn]))

/-! Claim theorems. -/

/-- C5: calling `measure.Batch` when the backend does not support batched
writes returns the typed `ErrBatchUnsupported` error, no batch object, and
leaves the metric state untouched. -/
theorem batch_open_unsupported (st : Metrics) (pe de : Option ε) :
    measureBatch false pe de st
      = (st, Except.error BatchOpenError.errBatchUnsupported) := rfl

/-- C4: when the backend commit of a non-empty sub-batch fails,
`logBatchCommit` still completes the metric updates before returning the
error: the count counter increases by the full buffered item count, the
latency histogram receives one truncated per-item sample for each buffered
item, and the error counter increases by exactly one. -/
theorem failed_commit_completes_metrics (n : Nat) (hn : 0 < n) (e : ε)
    (el : Nat) (num errs : Int) (lat : List Int) :
    logBatchCommit n (some e) el num errs lat
      = ⟨num + (n : Int), errs + 1,
         lat ++ List.replicate n ((el / n : Nat) : Int), true, some e⟩ := by
  simp [logBatchCommit, hn]

/-- Witness for C4 at n = 3. -/
theorem failed_commit_completes_metrics_witness :
    0 < 3 ∧ logBatchCommit 3 (some 7) 10 (4 : Int) (0 : Int) ([] : List Int)
      = ⟨4 + (3 : Int), 0 + 1, [] ++ List.replicate 3 ((10 / 3 : Nat) : Int),
         true, some 7⟩ :=
  ⟨by decide, failed_commit_completes_metrics 3 (by decide) 7 10 4 0 []⟩

/-- C10: `measuredBatch.Put` and `measuredBatch.Delete` increment their
buffered counters before forwarding, so each counter grows exactly once per
call even when the forwarded backend batch operation returns an error (the
backend outcome `berr`, returned unchanged, is arbitrary); and a buffered
count of `mt.puts + 1` is exactly what commit uses for the count-counter
increment and the per-item latency division. -/
theorem batch_buffer_counts_despite_error (st : Metrics) (mt : MeasuredBatch)
    (v : Val) (berr ce : Option ε) (el : Nat) (num errs : Int)
    (lat : List Int) :
    (batchPut st mt v berr).2.1.puts = mt.puts + 1 ∧
    (batchPut st mt v berr).2.1.deletes = mt.deletes ∧
    (batchPut st mt v berr).2.2 = berr ∧
    (batchDelete mt berr).1.deletes = mt.deletes + 1 ∧
    (batchDelete mt berr).1.puts = mt.puts ∧
    (batchDelete mt berr).2 = berr ∧
    (logBatchCommit (mt.puts + 1) ce el num errs lat).num
      = num + ((mt.puts + 1 : Nat) : Int) ∧
    (logBatchCommit (mt.puts + 1) ce el num errs lat).lat
      = lat ++ List.replicate (mt.puts + 1) ((el / (mt.puts + 1) : Nat) : Int) := by
  have hpos : 0 < mt.puts + 1 := Nat.succ_pos _
  cases v <;> cases ce <;>
    simp [batchPut, batchDelete, logBatchCommit, hpos]

/-- C2: every call of put, get, has, delete and query increments that
operation's count counter exactly once regardless of outcome; the error
counter is incremented exactly once iff the backend call returned an error;
and the backend's result and error are returned to the caller unchanged. -/
theorem ops_count_err_and_verbatim_result (st : Metrics) (v : Val)
    (pe : Option ε) (g : Except ε Val) (ex : Bool) (he de qe : Option ε)
    (q : ρ) (t1 t2 t3 t4 t5 : Nat) :
    ((measurePut st v pe t1).1.putCount = st.putCount + 1 ∧
      (measurePut st v pe t1).1.putErr
        = st.putErr + (if pe.isSome then 1 else 0) ∧
      (measurePut st v pe t1).2 = pe) ∧
    ((measureGet st g t2).1.getCount = st.getCount + 1 ∧
      (measureGet st g t2).1.getErr
        = st.getErr + (if g.isOk then 0 else 1) ∧
      (measureGet st g t2).2 = g) ∧
    ((measureHas st ex he t3).1.hasCount = st.hasCount + 1 ∧
      (measureHas st ex he t3).1.hasErr
        = st.hasErr + (if he.isSome then 1 else 0) ∧
      (measureHas st ex he t3).2 = (ex, he)) ∧
    ((measureDelete st de t4).1.deleteCount = st.deleteCount + 1 ∧
      (measureDelete st de t4).1.deleteErr
        = st.deleteErr + (if de.isSome then 1 else 0) ∧
      (measureDelete st de t4).2 = de) ∧
    ((measureQuery st q qe t5).1.queryCount = st.queryCount + 1 ∧
      (measureQuery st q qe t5).1.queryErr
        = st.queryErr + (if qe.isSome then 1 else 0) ∧
      (measureQuery st q qe t5).2 = (q, qe)) := by
  refine ⟨?_, ?_, ?_, ?_, ?_⟩
  · cases pe <;> cases v <;> simp [measurePut]
  · rcases g with e | w
    · simp [measureGet, Except.isOk, Except.toBool]
    · cases w <;> simp [measureGet, Except.isOk, Except.toBool]
  · cases he <;> simp [measureHas]
  · cases de <;> simp [measureDelete]
  · cases qe <;> simp [measureQuery]

/-- C9: every non-batched call of put, get, has, delete and query appends
exactly one sample to that operation's latency histogram, on success and on
error alike, and the recorded elapsed-microseconds sample is nonnegative. -/
theorem latency_one_sample_every_exit (st : Metrics) (v : Val)
    (pe : Option ε) (g : Except ε Val) (ex : Bool) (he de qe : Option ε)
    (q : ρ) (t1 t2 t3 t4 t5 : Nat) :
    ((measurePut st v pe t1).1.putLatency = st.putLatency ++ [(t1 : Int)] ∧
      (0 : Int) ≤ (t1 : Int)) ∧
    ((measureGet st g t2).1.getLatency = st.getLatency ++ [(t2 : Int)] ∧
      (0 : Int) ≤ (t2 : Int)) ∧
    ((measureHas st ex he t3).1.hasLatency = st.hasLatency ++ [(t3 : Int)] ∧
      (0 : Int) ≤ (t3 : Int)) ∧
    ((measureDelete st de t4).1.deleteLatency
        = st.deleteLatency ++ [(t4 : Int)] ∧
      (0 : Int) ≤ (t4 : Int)) ∧
    ((measureQuery st q qe t5).1.queryLatency
        = st.queryLatency ++ [(t5 : Int)] ∧
      (0 : Int) ≤ (t5 : Int)) := by
  refine ⟨⟨?_, Int.ofNat_nonneg t1⟩, ⟨?_, Int.ofNat_nonneg t2⟩,
    ⟨?_, Int.ofNat_nonneg t3⟩, ⟨?_, Int.ofNat_nonneg t4⟩,
    ⟨?_, Int.ofNat_nonneg t5⟩⟩
  · cases pe <;> cases v <;> simp [measurePut]
  · rcases g with e | w
    · simp [measureGet]
    · cases w <;> simp [measureGet]
  · cases he <;> simp [measureHas]
  · cases de <;> simp [measureDelete]
  · cases qe <;> simp [measureQuery]

/-- C1: when both backend sub-batch commits succeed, committing a batch with
P buffered puts and D buffered deletes increments put.count by exactly P,
appends exactly P identical samples of (put-commit elapsed microseconds
divided by P, truncating) to put.latency, symmetrically for deletes with D,
invokes a sub-batch's backend commit iff its buffered count is positive, and
when a buffered count is zero leaves that sub-batch's counters and
histograms untouched. -/
theorem batch_commit_success_metrics (st : Metrics) (P D ed ep : Nat) :
    measuredBatchCommit (ε := ε) st ⟨P, D⟩ none none ed ep
      = ({ st with
            deleteCount := st.deleteCount + (D : Int),
            deleteLatency := st.deleteLatency
              ++ List.replicate D ((ed / D : Nat) : Int),
            putCount := st.putCount + (P : Int),
            putLatency := st.putLatency
              ++ List.replicate P ((ep / P : Nat) : Int) },
         (if 0 < D then [CommitEvent.commitDeletes] else [])
           ++ (if 0 < P then [CommitEvent.commitPuts] else []),
         none) ∧
    (P = 0 →
      (measuredBatchCommit (ε := ε) st ⟨P, D⟩ none none ed ep).1.putCount
          = st.putCount ∧
      (measuredBatchCommit (ε := ε) st ⟨P, D⟩ none none ed ep).1.putErr
          = st.putErr ∧
      (measuredBatchCommit (ε := ε) st ⟨P, D⟩ none none ed ep).1.putLatency
          = st.putLatency ∧
      CommitEvent.commitPuts
          ∉ (measuredBatchCommit (ε := ε) st ⟨P, D⟩ none none ed ep).2.1) ∧
    (D = 0 →
      (measuredBatchCommit (ε := ε) st ⟨P, D⟩ none none ed ep).1.deleteCount
          = st.deleteCount ∧
      (measuredBatchCommit (ε := ε) st ⟨P, D⟩ none none ed ep).1.deleteErr
          = st.deleteErr ∧
      (measuredBatchCommit (ε := ε) st ⟨P, D⟩ none none ed ep).1.deleteLatency
          = st.deleteLatency ∧
      CommitEvent.commitDeletes
          ∉ (measuredBatchCommit (ε := ε) st ⟨P, D⟩ none none ed ep).2.1) := by
  have hmain : measuredBatchCommit (ε := ε) st ⟨P, D⟩ none none ed ep
      = ({ st with
            deleteCount := st.deleteCount + (D : Int),
            deleteLatency := st.deleteLatency
              ++ List.replicate D ((ed / D : Nat) : Int),
            putCount := st.putCount + (P : Int),
            putLatency := st.putLatency
              ++ List.replicate P ((ep / P : Nat) : Int) },
         (if 0 < D then [CommitEvent.commitDeletes] else [])
           ++ (if 0 < P then [CommitEvent.commitPuts] else []),
         none) := by
    rcases Nat.eq_zero_or_pos D with hD | hD
    · rcases Nat.eq_zero_or_pos P with hP | hP
      · subst hD; subst hP
        simp [measuredBatchCommit, logBatchCommit]
      · subst hD
        simp [measuredBatchCommit, logBatchCommit, hP]
    · rcases Nat.eq_zero_or_pos P with hP | hP
      · subst hP
        simp [measuredBatchCommit, logBatchCommit, hD]
      · simp [measuredBatchCommit, logBatchCommit, hD, hP]
  refine ⟨hmain, fun hP => ?_, fun hD => ?_⟩
  · subst hP
    rw [hmain]
    simp
  · subst hD
    rw [hmain]
    simp

/-- C3: commit processes the delete sub-batch strictly before the put
sub-batch (for any buffered counts and backend outcomes, the invocation
trace is a sublist of [commitDeletes, commitPuts]); when a non-empty delete
sub-batch's backend commit fails, its error counter increases by exactly 1,
the backend error is returned verbatim, the put sub-batch's backend commit
is never invoked and put metrics stay untouched; and when a non-empty put
sub-batch's backend commit fails after the delete sub-batch (of any size,
empty included) produced no error, put.err increases by exactly 1 and the
error is returned. -/
theorem batch_commit_order_and_failure (st : Metrics) (P D ed ep : Nat)
    (e : ε) (pce : Option ε) :
    (0 < D →
      (measuredBatchCommit st ⟨P, D⟩ (some e) pce ed ep).2.2 = some e ∧
      (measuredBatchCommit st ⟨P, D⟩ (some e) pce ed ep).1.deleteErr
        = st.deleteErr + 1 ∧
      (measuredBatchCommit st ⟨P, D⟩ (some e) pce ed ep).2.1
        = [CommitEvent.commitDeletes] ∧
      CommitEvent.commitPuts
        ∉ (measuredBatchCommit st ⟨P, D⟩ (some e) pce ed ep).2.1 ∧
      (measuredBatchCommit st ⟨P, D⟩ (some e) pce ed ep).1.putCount
        = st.putCount ∧
      (measuredBatchCommit st ⟨P, D⟩ (some e) pce ed ep).1.putErr
        = st.putErr ∧
      (measuredBatchCommit st ⟨P, D⟩ (some e) pce ed ep).1.putLatency
        = st.putLatency) ∧
    (0 < P →
      (measuredBatchCommit st ⟨P, D⟩ none (some e) ed ep).2.2 = some e ∧
      (measuredBatchCommit st ⟨P, D⟩ none (some e) ed ep).1.putErr
        = st.putErr + 1) ∧
    (∀ dce2 pce2 : Option ε,
      List.Sublist (measuredBatchCommit st ⟨P, D⟩ dce2 pce2 ed ep).2.1
        [CommitEvent.commitDeletes, CommitEvent.commitPuts]) := by
  refine ⟨fun hD => ?_, fun hP => ?_, fun dce2 pce2 => ?_⟩
  · simp [measuredBatchCommit, logBatchCommit, hD]
  · rcases Nat.eq_zero_or_pos D with hD | hD
    · subst hD
      simp [measuredBatchCommit, logBatchCommit, hP]
    · simp [measuredBatchCommit, logBatchCommit, hD, hP]
  · rcases Nat.eq_zero_or_pos D with hD | hD
    · subst hD
      rcases Nat.eq_zero_or_pos P with hP | hP
      · subst hP
        cases dce2 <;> cases pce2 <;>
          simp [measuredBatchCommit, logBatchCommit]
      · cases dce2 <;> cases pce2 <;>
          simp [measuredBatchCommit, logBatchCommit, hP]
    · rcases dce2 with _ | e2
      · rcases Nat.eq_zero_or_pos P with hP | hP
        · subst hP
          cases pce2 <;> simp [measuredBatchCommit, logBatchCommit, hD]
        · cases pce2 <;> simp [measuredBatchCommit, logBatchCommit, hD, hP]
      · simp [measuredBatchCommit, logBatchCommit, hD]

/-- Witness for C3: a delete-failure batch at P = 1, D = 1 and a puts-only
failing batch at P = 1, D = 0, with the ordering clause at both shapes. -/
theorem batch_commit_order_and_failure_witness :
    (0 < 1 ∧
      ((measuredBatchCommit Metrics.init ⟨1, 1⟩ (some 7) none 9 4).2.2
          = some 7 ∧
        (measuredBatchCommit Metrics.init ⟨1, 1⟩ (some 7) none 9 4).1.deleteErr
          = Metrics.init.deleteErr + 1 ∧
        (measuredBatchCommit Metrics.init ⟨1, 1⟩ (some 7) none 9 4).2.1
          = [CommitEvent.commitDeletes] ∧
        CommitEvent.commitPuts
          ∉ (measuredBatchCommit Metrics.init ⟨1, 1⟩ (some 7) none 9 4).2.1 ∧
        (measuredBatchCommit Metrics.init ⟨1, 1⟩ (some 7) none 9 4).1.putCount
          = Metrics.init.putCount ∧
        (measuredBatchCommit Metrics.init ⟨1, 1⟩ (some 7) none 9 4).1.putErr
          = Metrics.init.putErr ∧
        (measuredBatchCommit Metrics.init ⟨1, 1⟩ (some 7) none 9 4).1.putLatency
          = Metrics.init.putLatency)) ∧
    (0 < 1 ∧
      ((measuredBatchCommit Metrics.init ⟨1, 0⟩ none (some 7) 9 4).2.2
          = some 7 ∧
        (measuredBatchCommit Metrics.init ⟨1, 0⟩ none (some 7) 9 4).1.putErr
          = Metrics.init.putErr + 1)) ∧
    (∀ dce2 pce2 : Option Nat,
      List.Sublist (measuredBatchCommit Metrics.init ⟨1, 1⟩ dce2 pce2 9 4).2.1
        [CommitEvent.commitDeletes, CommitEvent.commitPuts]) ∧
    (∀ dce2 pce2 : Option Nat,
      List.Sublist (measuredBatchCommit Metrics.init ⟨1, 0⟩ dce2 pce2 9 4).2.1
        [CommitEvent.commitDeletes, CommitEvent.commitPuts]) :=
  ⟨⟨by decide,
    (batch_commit_order_and_failure Metrics.init 1 1 9 4 7 none).1 (by decide)⟩,
   ⟨by decide,
    (batch_commit_order_and_failure Metrics.init 1 0 9 4 7 none).2.1 (by decide)⟩,
   (batch_commit_order_and_failure Metrics.init 1 1 9 4 7 none).2.2,
   (batch_commit_order_and_failure Metrics.init 1 0 9 4 7 none).2.2⟩

/-- Witness for C1: at P = 0 the put sub-batch of a successful commit is
skipped entirely. -/
theorem batch_commit_success_metrics_witness :
    (0 : Nat) = 0 ∧
    ((measuredBatchCommit (ε := Nat) Metrics.init ⟨0, 2⟩ none none 9 4).1.putCount
        = Metrics.init.putCount ∧
      (measuredBatchCommit (ε := Nat) Metrics.init ⟨0, 2⟩ none none 9 4).1.putErr
        = Metrics.init.putErr ∧
      (measuredBatchCommit (ε := Nat) Metrics.init ⟨0, 2⟩ none none 9 4).1.putLatency
        = Metrics.init.putLatency ∧
      CommitEvent.commitPuts
        ∉ (measuredBatchCommit (ε := Nat) Metrics.init ⟨0, 2⟩ none none 9 4).2.1) :=
  ⟨rfl, (batch_commit_success_metrics Metrics.init 0 2 9 4).2.1 rfl⟩

/-- C6: construction registers exactly 17 metrics, named by appending the 17
operation/signal suffixes to the caller's name, handle by handle with no
collision when the registry holds none of them; and running construction a
second time with the same name against the registry the first run produced
aborts with the duplicate-metric panic on the very first name. -/
theorem new_registers_17_and_collides (pfx : String) (reg : List String)
    (h : ∀ n ∈ metricNames pfx, n ∉ reg) :
    measureNew pfx reg = Except.ok (reg ++ metricNames pfx) ∧
    (metricNames pfx).length = 17 ∧
    measureNew pfx (reg ++ metricNames pfx)
      = Except.error ("duplicate metric " ++ (pfx ++ ".put.count")) := by
  refine ⟨foldlM_registerName_ok _ reg h (metricNames_nodup pfx), by
    simp [metricNames], ?_⟩
  have hmem : pfx ++ ".put.count" ∈ reg ++ metricNames pfx := by
    simp [metricNames]
  show (metricNames pfx).foldlM registerName (reg ++ metricNames pfx) = _
  simp only [metricNames, List.foldlM_cons]
  simp [registerName, hmem, Bind.bind, Except.bind]

/-- Witness for C6 with the name "ds" and an empty registry. -/
theorem new_registers_17_and_collides_witness :
    (∀ n ∈ metricNames "ds", n ∉ ([] : List String)) ∧
    (measureNew "ds" [] = Except.ok ([] ++ metricNames "ds") ∧
      (metricNames "ds").length = 17 ∧
      measureNew "ds" ([] ++ metricNames "ds")
        = Except.error ("duplicate metric " ++ ("ds" ++ ".put.count"))) :=
  ⟨by simp, new_registers_17_and_collides "ds" [] (by simp)⟩

/-- C7: Close unregisters all 17 metric names regardless of whether the
backend is closeable (the registry returns to its pre-construction state),
invokes the backend Close iff the backend implements the closeable
capability, returning its result in that case and nil otherwise. -/
theorem close_unregisters_all_then_closes (pfx : String) (reg0 : List String)
    (closeable : Bool) (ce : Option ε)
    (h : ∀ n ∈ metricNames pfx, n ∉ reg0) :
    measureClose pfx (reg0 ++ metricNames pfx) closeable ce
      = (reg0, closeable, if closeable then ce else none) := by
  have hreg : unregisterAll (reg0 ++ metricNames pfx) (metricNames pfx) = reg0 :=
    foldl_erase_of_disjoint _ reg0 h
  cases closeable <;> simp [measureClose, hreg]

/-- Witness for C7 with the name "ds", an empty remaining registry and a
closeable backend. -/
theorem close_unregisters_all_then_closes_witness :
    (∀ n ∈ metricNames "ds", n ∉ ([] : List String)) ∧
    measureClose "ds" ([] ++ metricNames "ds") true (some 7)
      = ([], true, if true then some 7 else none) :=
  ⟨by simp, close_unregisters_all_then_closes "ds" [] true (some 7) (by simp)⟩

theorem runPuts_all_bytes (calls : List (Val × Option ε × Nat)) (st : Metrics)
    (h : ∀ c ∈ calls, c.1.isBytes = true ∧ c.2.1 = none) :
    (runPuts st calls).putSize
        = st.putSize ++ calls.map (fun c => (c.1.byteLen : Int)) ∧
    (runPuts st calls).putCount = st.putCount + calls.length := by
  induction calls generalizing st with
  | nil => simp [runPuts]
  | cons c cs ih =>
    obtain ⟨hb, he⟩ := h c (by simp)
    have hstep : runPuts st (c :: cs)
        = runPuts (measurePut st c.1 c.2.1 c.2.2).1 cs := rfl
    rcases hv : c.1 with n | _
    · rw [hstep]
      obtain ⟨ih1, ih2⟩ := ih (measurePut st c.1 c.2.1 c.2.2).1
        (fun d hd => h d (by simp [hd]))
      constructor
      · rw [ih1]
        simp [measurePut, hv, he, Val.byteLen, List.append_assoc]
      · rw [ih2]
        simp [measurePut, hv, he]
        omega
    · rw [hv] at hb
      simp [Val.isBytes] at hb

/-- C8: a direct or batch-buffered put records one put-size sample equal to
the value's byte length iff the value is a raw byte payload, regardless of
the backend outcome; a get records one get-size sample equal to the returned
value's byte length iff the backend get succeeds with a byte payload; and a
sequence of N successful byte-valued puts appends exactly N samples to the
put-size histogram, each the corresponding payload length, while put.count
grows by N. -/
theorem size_sampling (st : Metrics) (v : Val) (pe : Option ε) (t : Nat)
    (g : Except ε Val) (t2 : Nat) (mt : MeasuredBatch)
    (calls : List (Val × Option ε × Nat))
    (h : ∀ c ∈ calls, c.1.isBytes = true ∧ c.2.1 = none) :
    (measurePut st v pe t).1.putSize = st.putSize ++ v.sizeSample ∧
    (batchPut st mt v pe).1.putSize = st.putSize ++ v.sizeSample ∧
    (measureGet st g t2).1.getSize = st.getSize ++
      (match g with | .ok w => w.sizeSample | .error _ => []) ∧
    (runPuts st calls).putSize
        = st.putSize ++ calls.map (fun c => (c.1.byteLen : Int)) ∧
    (runPuts st calls).putCount = st.putCount + calls.length := by
  obtain ⟨h4, h5⟩ := runPuts_all_bytes calls st h
  refine ⟨?_, ?_, ?_, h4, h5⟩
  · cases v <;> cases pe <;> simp [measurePut, Val.sizeSample]
  · cases v <;> simp [batchPut, Val.sizeSample]
  · rcases g with e | w
    · simp [measureGet, Val.sizeSample]
    · cases w <;> simp [measureGet, Val.sizeSample]

/-- Witness for C8 with two successful byte-valued puts of lengths 5 and 2. -/
theorem size_sampling_witness :
    (∀ c ∈ [((Val.bytes 5 : Val), (none : Option Nat), 3),
            ((Val.bytes 2 : Val), (none : Option Nat), 1)],
        c.1.isBytes = true ∧ c.2.1 = none) ∧
    ((measurePut Metrics.init (Val.bytes 4) (some 9 : Option Nat) 3).1.putSize
        = Metrics.init.putSize ++ (Val.bytes 4).sizeSample ∧
      (batchPut Metrics.init ⟨0, 0⟩ (Val.bytes 4) (some 9 : Option Nat)).1.putSize
        = Metrics.init.putSize ++ (Val.bytes 4).sizeSample ∧
      (measureGet Metrics.init (Except.ok (Val.bytes 6) : Except Nat Val) 2).1.getSize
        = Metrics.init.getSize ++
          (match (Except.ok (Val.bytes 6) : Except Nat Val) with
            | .ok w => w.sizeSample | .error _ => []) ∧
      (runPuts Metrics.init
          [((Val.bytes 5 : Val), (none : Option Nat), 3),
           ((Val.bytes 2 : Val), (none : Option Nat), 1)]).putSize
        = Metrics.init.putSize
          ++ ([((Val.bytes 5 : Val), (none : Option Nat), 3),
               ((Val.bytes 2 : Val), (none : Option Nat), 1)].map
                (fun c => (c.1.byteLen : Int))) ∧
      (runPuts Metrics.init
          [((Val.bytes 5 : Val), (none : Option Nat), 3),
           ((Val.bytes 2 : Val), (none : Option Nat), 1)]).putCount
        = Metrics.init.putCount
          + ([((Val.bytes 5 : Val), (none : Option Nat), 3),
              ((Val.bytes 2 : Val), (none : Option Nat), 1)] :
              List (Val × Option Nat × Nat)).length) :=
  ⟨by decide,
   size_sampling Metrics.init (Val.bytes 4) (some 9) 3
     (Except.ok (Val.bytes 6)) 2 ⟨0, 0⟩
     [((Val.bytes 5 : Val), (none : Option Nat), 3),
      ((Val.bytes 2 : Val), (none : Option Nat), 1)] (by decide)⟩

end DsMeasure
